import Mathlib

/-!
Verification of the SuaveSave save manager (`manager.py`, `errors.py`).

The development shallowly embeds the save-state engine: the filesystem is a
map from directory paths to directory trees, a directory tree is the list of
files it contains, and every handler of `Manager` that the claims mention is
translated into a pure state-passing function.  The sha1-based
`Manager._hash` content addressing is abstracted as a function parameter
`hashFn`; the claims only use its determinism, and collision freedom enters
as explicit path-distinctness hypotheses.
-/

namespace SuaveSave

/-- A directory tree, modelled extensionally as the list of files it holds:
pairs of a relative file path and the file's content. -/
abbrev Tree := List (String × Nat)

/-- The filesystem: a map from absolute directory path to the tree stored
there, `none` when nothing exists at that path. -/
abbrev FS := String → Option Tree

/-- `os.path.exists` (and `os.path.isdir`, since only directories are
modelled). -/
def pathExists (fs : FS) (p : String) : Bool :=
  (fs p).isSome

/-- `shutil.rmtree p`: the directory at `p` is deleted entirely. -/
def rmtree (fs : FS) (p : String) : FS :=
  fun q => if q = p then none else fs q

/-- `shutil.move src dst` where `dst` does not exist: a single filesystem
rename of the directory, not a copy. -/
def moveTree (fs : FS) (src dst : String) : FS :=
  fun q => if q = dst then fs src else if q = src then none else fs q

/-- `shutil.copytree src dst`: recursively copy the tree at `src` to the
fresh destination `dst`, leaving `src` in place. -/
def copytree (fs : FS) (src dst : String) : FS :=
  fun q => if q = dst then fs src else fs q

/-- A save record (`class Save`): a name plus tags (tags are never used). -/
structure Save where
  name : String
  tags : List String
deriving DecidableEq

/-- The per-profile snapshot store state kept on `Manager`: the ordered
`self.saves` list and the `self.last_save` index (`-1` meaning "none"). -/
structure Store where
  saves : List Save
  last_save : Int
deriving DecidableEq

/-- Path of the transient backup directory under the profile directory
(`os.path.join(self.profile_dir, 'backup')`). -/
def backupPath (profileDir : String) : String :=
  profileDir ++ "/backup"

/-- Path of the snapshot directory of the save named `name`:
`os.path.join(self.profile_dir, self._hash(name))`, with `Manager._hash`
(sha1 hexdigest) abstracted as `hashFn`. -/
def savePath (hashFn : String → String) (profileDir name : String) : String :=
  profileDir ++ "/" ++ hashFn name

/-- Python list indexing `l[i]`, including the negative-index wraparound
used by `_reload` when `last_save = -1`; `none` models `IndexError`. -/
def pyGet {α : Type} (l : List α) (i : Int) : Option α :=
  if 0 ≤ i then l[i.toNat]?
  else if 0 ≤ (l.length : Int) + i then l[((l.length : Int) + i).toNat]?
  else none

/-- Step 1 of `Manager._set_save`: a stale backup directory, if present, is
deleted entirely. -/
def setSaveStep1 (fs : FS) (backupDir : String) : FS :=
  if pathExists fs backupDir then rmtree fs backupDir else fs

/-- Steps 1 and 2 of `Manager._set_save`: after clearing the stale backup,
the live game directory, if present, is moved (renamed) to the backup
location. -/
def setSaveStep2 (fs : FS) (backupDir liveDir : String) : FS :=
  let fs1 := setSaveStep1 fs backupDir
  if pathExists fs1 liveDir then moveTree fs1 liveDir backupDir else fs1

/-- The filesystem effect of `Manager._set_save`: steps 1 and 2, then step 3
copies the snapshot directory into the now-free live location. -/
def setSaveFs (fs : FS) (backupDir liveDir saveDir : String) : FS :=
  copytree (setSaveStep2 fs backupDir liveDir) saveDir liveDir

/-- `Manager._set_save index`: the filesystem swap plus the update of
`self.last_save`.  The saves-list lookup uses Python indexing (the index may
be `-1` when called from `_reload`); `none` models the `IndexError` raised
on an out-of-range index. -/
def setSave (st : Store) (fs : FS) (hashFn : String → String)
    (profileDir liveDir : String) (i : Int) : Option (Store × FS) :=
  let fs2 := setSaveStep2 fs (backupPath profileDir) liveDir
  match pyGet st.saves i with
  | none => none
  | some sv =>
      some ({ st with last_save := i },
            copytree fs2 (savePath hashFn profileDir sv.name) liveDir)

/-- Outcome classification of `Manager._create`: the early return when the
game directory is absent (the spec's `SourceMissingError`), the early return
when the user declines the overwrite prompt, or successful creation. -/
inductive CreateStatus where
  | sourceMissing
  | notConfirmed
  | ok
deriving DecidableEq

/-- Result of `Manager._create`: the in-memory store, the filesystem, and
how the handler exited.  The saves file on durable storage is rewritten
exactly when `status = ok`. -/
structure CreateOut where
  store : Store
  fs : FS
  status : CreateStatus

/-- `Manager._create`: capture the live game directory as a save named
`name`.  `confirmOverwrite` is the user's answer to the overwrite prompt
(only consulted when the destination directory already exists).  On the
overwrite path the old snapshot directory is removed, the first record with
this name is dropped from the list, and the fresh record is appended at the
end. -/
def createSave (st : Store) (fs : FS) (hashFn : String → String)
    (profileDir gameDir name : String) (confirmOverwrite : Bool) : CreateOut :=
  if pathExists fs gameDir = false then
    { store := st, fs := fs, status := .sourceMissing }
  else
    let destDir := savePath hashFn profileDir name
    if pathExists fs destDir then
      if confirmOverwrite = false then
        { store := st, fs := fs, status := .notConfirmed }
      else
        let fs1 := rmtree fs destDir
        let saves1 :=
          match st.saves.findIdx? (fun s => s.name == name) with
          | some i => st.saves.eraseIdx i
          | none => st.saves
        { store := { saves := saves1 ++ [⟨name, []⟩], last_save := st.last_save },
          fs := copytree fs1 gameDir destDir,
          status := .ok }
    else
      { store := { saves := st.saves ++ [⟨name, []⟩], last_save := st.last_save },
        fs := copytree fs gameDir destDir,
        status := .ok }

/-- `Manager._delete` after the user confirms: remove the snapshot directory
and the record at `i`, then adjust `last_save` exactly as the source does.
The menu guarantees `i` is in range; `none`-like fallback keeps the state
unchanged. -/
def deleteSave (st : Store) (fs : FS) (hashFn : String → String)
    (profileDir : String) (i : Nat) : Store × FS :=
  match st.saves[i]? with
  | none => (st, fs)
  | some sv =>
      let fs1 := rmtree fs (savePath hashFn profileDir sv.name)
      let saves1 := st.saves.eraseIdx i
      let last1 : Int :=
        if (i : Int) = st.last_save then -1
        else if (i : Int) < st.last_save then st.last_save - 1
        else st.last_save
      ({ saves := saves1, last_save := last1 }, fs1)

/-- `Manager._reorder`: pop the save at `fromIdx`, then insert it at
`toIdx`, an index into the shortened list (the extra "end of list" menu
entry corresponds to `toIdx` equal to the shortened list's length). -/
def reorderSave (st : Store) (fromIdx toIdx : Nat) : Store :=
  match st.saves[fromIdx]? with
  | none => st
  | some sv =>
      { st with saves := (st.saves.eraseIdx fromIdx).insertIdx toIdx sv }

/-- `Manager._reload`: raise `NoSaveException` (modelled as `none`) when the
list is empty, otherwise re-activate the save at index `self.last_save`. -/
def reload (st : Store) (fs : FS) (hashFn : String → String)
    (profileDir liveDir : String) : Option (Store × FS) :=
  if st.saves.isEmpty then none
  else setSave st fs hashFn profileDir liveDir st.last_save

/-- A profile (`class Profile`): a name and the live game directory. -/
structure Profile where
  name : String
  game_directory : String
deriving DecidableEq

/-- The profile registry (`class ProfileList`): the ordered profile list and
the default index. -/
structure ProfileList where
  profiles : List Profile
  default : Nat
deriving DecidableEq

/-- `ProfileList.get_default`: the default profile, or `none` when the list
is empty (an out-of-range `default` raises `IndexError`, also `none`). -/
def ProfileList.get_default (l : ProfileList) : Option Profile :=
  if l.profiles.isEmpty then none else l.profiles[l.default]?

/-- Registry effect of `Manager._create_profile`: append the new profile. -/
def addProfile (l : ProfileList) (p : Profile) : ProfileList :=
  { l with profiles := l.profiles ++ [p] }

/-- `Manager._set_default_profile`: set the default index (the menu
guarantees the index is in range). -/
def setDefaultProfile (l : ProfileList) (i : Nat) : ProfileList :=
  { l with default := i }

/-- Registry effect of `Manager._delete_profile` after confirmation: reset
`default` to 0 when it equals the deleted index, then delete the entry. -/
def removeProfile (l : ProfileList) (i : Nat) : ProfileList :=
  let d := if l.default = i then 0 else l.default
  { profiles := l.profiles.eraseIdx i, default := d }

/-- A registry operation, for reasoning about operation sequences. -/
inductive RegOp where
  | add (p : Profile)
  | remove (i : Nat)
  | setDef (i : Nat)
deriving DecidableEq

/-- Apply one registry operation. -/
def applyOp (l : ProfileList) : RegOp → ProfileList
  | .add p => addProfile l p
  | .remove i => removeProfile l i
  | .setDef i => setDefaultProfile l i

/-- Apply a sequence of registry operations, left to right. -/
def applyOps (l : ProfileList) : List RegOp → ProfileList
  | [] => l
  | op :: ops => applyOps (applyOp l op) ops

/-- Validity of one operation: the menu only offers indices of existing
profiles. -/
def opValid (l : ProfileList) : RegOp → Prop
  | .add _ => True
  | .remove i => i < l.profiles.length
  | .setDef i => i < l.profiles.length

instance (l : ProfileList) (op : RegOp) : Decidable (opValid l op) := by
  cases op <;> simp only [opValid] <;> infer_instance

/-- Validity of a sequence of operations, each judged against the registry
state it runs in. -/
def opsValid (l : ProfileList) : List RegOp → Prop
  | [] => True
  | op :: ops => opValid l op ∧ opsValid (applyOp l op) ops

instance (l : ProfileList) (ops : List RegOp) : Decidable (opsValid l ops) := by
  induction ops generalizing l with
  | nil => exact .isTrue trivial
  | cons op ops ih => exact @instDecidableAnd _ _ _ (ih (applyOp l op))

/-- The registry invariant asserted by the spec: `default` is a valid index
whenever the profile list is non-empty. -/
def DefaultInv (l : ProfileList) : Prop :=
  l.profiles ≠ [] → l.default < l.profiles.length

instance (l : ProfileList) : Decidable (DefaultInv l) := by
  unfold DefaultInv; infer_instance

/-- Strengthened registry invariant, as actually maintained by the reachable
states: `default` is 0 on an empty registry (the spec's "meaningless until a
profile exists again") and in range otherwise. -/
def RegInv (l : ProfileList) : Prop :=
  (l.profiles = [] → l.default = 0) ∧
  (l.profiles ≠ [] → l.default < l.profiles.length)

instance (l : ProfileList) : Decidable (RegInv l) := by
  unfold RegInv; infer_instance

/-- Restricted operation validity under which the spec's `default`
invariant really is preserved: a removal must not target an index strictly
below the current `default`. -/
def opGood (l : ProfileList) : RegOp → Prop
  | .add _ => True
  | .remove i => i < l.profiles.length ∧ l.default ≤ i
  | .setDef i => i < l.profiles.length

instance (l : ProfileList) (op : RegOp) : Decidable (opGood l op) := by
  cases op <;> simp only [opGood] <;> infer_instance

/-- A sequence of operations, each good in the registry state it runs in. -/
def opsGood (l : ProfileList) : List RegOp → Prop
  | [] => True
  | op :: ops => opGood l op ∧ opsGood (applyOp l op) ops

instance (l : ProfileList) (ops : List RegOp) : Decidable (opsGood l ops) := by
  induction ops generalizing l with
  | nil => exact .isTrue trivial
  | cons op ops ih => exact @instDecidableAnd _ _ _ (ih (applyOp l op))

/-- `MAX_ACTIVE_POLLS` from the source. -/
def MAX_ACTIVE_POLLS : Nat := 10

/-- The inner re-sampling loop of `Manager._autoload` (the
`for _ in range(MAX_ACTIVE_POLLS)` loop).  `samples k` is the value the
k-th call to `_get_last_modified_time_in_profile` returns after the burst
trigger; `i` is the index of the next unread sample, `current` the
current_time variable, and the third argument the remaining iterations.
Returns the index of the next unread sample and the final current_time. -/
def activePolls (samples : Nat → Nat) : Nat → Nat → Nat → Nat × Nat
  | i, current, 0 => (i, current)
  | i, current, fuel + 1 =>
      if samples i = current then (i + 1, samples i)
      else activePolls samples (i + 1) (samples i) fuel

/-- Observable outcome of handling one modification burst in
`Manager._autoload`. -/
structure BurstResult where
  nextIdx : Nat
  samplesTaken : Nat
  activations : Nat
  finalCurrent : Nat
  baseline : Nat
deriving DecidableEq

/-- Burst handling in `Manager._autoload`: once `current > last_time` has
triggered, run the bounded re-sampling loop starting at sample `i` with the
triggering value `current`, then call `_set_save` (exactly one activation)
and re-baseline `last_time` with one further fresh sample. -/
def burstHandle (samples : Nat → Nat) (i current : Nat) : BurstResult :=
  let r := activePolls samples i current MAX_ACTIVE_POLLS
  { nextIdx := r.1 + 1
    samplesTaken := r.1 - i
    activations := 1
    finalCurrent := r.2
    baseline := samples r.1 }

/-- One iteration of the outer `while True` polling loop of
`Manager._autoload`, in the ARMED state with baseline `baseline`: read one
sample; if it exceeds the baseline, handle the burst, otherwise stay armed.
Returns the next unread sample index, the new baseline, and how many times
`_set_save` was called during the iteration. -/
def autoloadStep (samples : Nat → Nat) (i baseline : Nat) : Nat × Nat × Nat :=
  let c := samples i
  if baseline < c then
    let r := burstHandle samples (i + 1) c
    (r.nextIdx, r.baseline, r.activations)
  else (i + 1, baseline, 0)

/-! Helper lemmas about the filesystem primitives. -/

/-- Step 1 touches only the backup path. -/
lemma setSaveStep1_ne (fs : FS) (b q : String) (h : q ≠ b) :
    setSaveStep1 fs b q = fs q := by
  unfold setSaveStep1 rmtree
  split <;> simp [h]

/-- Steps 1 and 2 touch only the backup path and the live path. -/
lemma setSaveStep2_ne (fs : FS) (b l q : String) (hqb : q ≠ b) (hql : q ≠ l) :
    setSaveStep2 fs b l q = fs q := by
  unfold setSaveStep2 moveTree
  split <;> simp [hqb, hql, setSaveStep1_ne fs b q hqb]

/-- After the full swap, the live path holds the snapshot's tree. -/
lemma setSaveFs_live (fs : FS) (b l s : String) (hsb : s ≠ b) (hsl : s ≠ l) :
    setSaveFs fs b l s l = fs s := by
  unfold setSaveFs copytree
  simp [setSaveStep2_ne fs b l s hsb hsl]

/-- C1: `_set_save` performs the swap in the exact order (1) delete a stale
backup, (2) move the existing live directory (a rename, not a copy) to the
backup path, (3) copy the snapshot into the now-free live path.  For a live
directory holding `L` before the call: after step 1 the backup path is
clear; after step 2 (before step 3) the live path is empty and `L` is fully
recoverable at the backup path; after step 3 the live path holds the
snapshot's tree, the snapshot is still in place (copied, not moved), and
`L` is still at the backup path — the prior live contents are never
deleted outright. -/
theorem set_save_swap_sequence (fs : FS) (backupDir liveDir saveDir : String)
    (L : Tree) (hbl : backupDir ≠ liveDir) (hbs : backupDir ≠ saveDir)
    (hls : liveDir ≠ saveDir) (hlive : fs liveDir = some L) :
    setSaveStep1 fs backupDir backupDir = none ∧
    setSaveStep2 fs backupDir liveDir backupDir = some L ∧
    setSaveStep2 fs backupDir liveDir liveDir = none ∧
    setSaveFs fs backupDir liveDir saveDir liveDir = fs saveDir ∧
    setSaveFs fs backupDir liveDir saveDir saveDir = fs saveDir ∧
    setSaveFs fs backupDir liveDir saveDir backupDir = some L := by
  have h1 : setSaveStep1 fs backupDir backupDir = none := by
    unfold setSaveStep1 rmtree pathExists
    split
    · simp
    · next h => simpa [Option.isSome_iff_ne_none] using h
  have hl1 : setSaveStep1 fs backupDir liveDir = some L :=
    (setSaveStep1_ne fs backupDir liveDir (Ne.symm hbl)).trans hlive
  have h2b : setSaveStep2 fs backupDir liveDir backupDir = some L := by
    unfold setSaveStep2 moveTree pathExists
    simp [hl1]
  have h2l : setSaveStep2 fs backupDir liveDir liveDir = none := by
    unfold setSaveStep2 moveTree pathExists
    simp [hl1, Ne.symm hbl]
  refine ⟨h1, h2b, h2l, setSaveFs_live fs backupDir liveDir saveDir
    (Ne.symm hbs) (Ne.symm hls), ?_, ?_⟩
  · unfold setSaveFs copytree
    simp [Ne.symm hls, setSaveStep2_ne fs backupDir liveDir saveDir
      (Ne.symm hbs) (Ne.symm hls)]
  · unfold setSaveFs copytree
    simp [hbl, h2b]

/-- Witness for C1 at a concrete filesystem. -/
theorem set_save_swap_sequence_w :
    setSaveStep1
      (fun q => if q = "live" then some [("f", 1)]
                else if q = "snap" then some [("g", 2)] else none)
      "bk" "bk" = none ∧
    setSaveStep2
      (fun q => if q = "live" then some [("f", 1)]
                else if q = "snap" then some [("g", 2)] else none)
      "bk" "live" "bk" = some [("f", 1)] ∧
    setSaveStep2
      (fun q => if q = "live" then some [("f", 1)]
                else if q = "snap" then some [("g", 2)] else none)
      "bk" "live" "live" = none ∧
    setSaveFs
      (fun q => if q = "live" then some [("f", 1)]
                else if q = "snap" then some [("g", 2)] else none)
      "bk" "live" "snap" "live" =
      (fun q => if q = "live" then some [("f", 1)]
                else if q = "snap" then some [("g", 2)] else none) "snap" ∧
    setSaveFs
      (fun q => if q = "live" then some [("f", 1)]
                else if q = "snap" then some [("g", 2)] else none)
      "bk" "live" "snap" "snap" =
      (fun q => if q = "live" then some [("f", 1)]
                else if q = "snap" then some [("g", 2)] else none) "snap" ∧
    setSaveFs
      (fun q => if q = "live" then some [("f", 1)]
                else if q = "snap" then some [("g", 2)] else none)
      "bk" "live" "snap" "bk" = some [("f", 1)] :=
  set_save_swap_sequence
    (fun q => if q = "live" then some [("f", 1)]
              else if q = "snap" then some [("g", 2)] else none)
    "bk" "live" "snap" [("f", 1)]
    (by decide) (by decide) (by decide) (by decide)

/-- C8: when the live (source) directory does not exist, `_create` aborts
immediately: no save record is added, no snapshot directory is created, the
filesystem and store are returned untouched, and the saves file is not
rewritten (`status` is `sourceMissing`, the engine-level
`SourceMissingError`). -/
theorem create_source_missing (st : Store) (fs : FS) (hashFn : String → String)
    (profileDir gameDir name : String) (confirm : Bool)
    (h : fs gameDir = none) :
    createSave st fs hashFn profileDir gameDir name confirm =
      { store := st, fs := fs, status := .sourceMissing } := by
  unfold createSave pathExists
  simp [h]

/-- Witness for C8 at a concrete empty filesystem. -/
theorem create_source_missing_w :
    createSave ⟨[⟨"slot", []⟩], 0⟩ (fun _ => none) (fun s => s) "p" "g" "X" true =
      { store := ⟨[⟨"slot", []⟩], 0⟩, fs := fun _ => none,
        status := .sourceMissing } :=
  create_source_missing ⟨[⟨"slot", []⟩], 0⟩ (fun _ => none) (fun s => s)
    "p" "g" "X" true rfl

/-- C2: round trip.  Capturing the live directory `D` as a save named
`name` (`_create`, overwrite confirmed if needed) and then activating that
snapshot back into the live location (`_set_save`'s filesystem swap) leaves
the live directory holding exactly `D`, the tree as it was at capture
time. -/
theorem capture_activate_roundtrip (st : Store) (fs : FS)
    (hashFn : String → String) (profileDir gameDir name : String) (D : Tree)
    (hlive : fs gameDir = some D)
    (h1 : savePath hashFn profileDir name ≠ gameDir)
    (h2 : savePath hashFn profileDir name ≠ backupPath profileDir) :
    (createSave st fs hashFn profileDir gameDir name true).status = .ok ∧
    (createSave st fs hashFn profileDir gameDir name true).fs
      (savePath hashFn profileDir name) = some D ∧
    setSaveFs (createSave st fs hashFn profileDir gameDir name true).fs
      (backupPath profileDir) gameDir (savePath hashFn profileDir name)
      gameDir = some D := by
  have hfs : (createSave st fs hashFn profileDir gameDir name true).fs
      (savePath hashFn profileDir name) = some D := by
    unfold createSave pathExists rmtree copytree
    simp only [hlive, Option.isSome_some]
    rw [if_neg (by simp)]
    split
    · simp [h1, Ne.symm h1, hlive]
    · simp [hlive]
  have hst : (createSave st fs hashFn profileDir gameDir name true).status = .ok := by
    unfold createSave pathExists
    simp only [hlive, Option.isSome_some]
    rw [if_neg (by simp)]
    split <;> rfl
  exact ⟨hst, hfs,
    (setSaveFs_live (createSave st fs hashFn profileDir gameDir name true).fs
      (backupPath profileDir) gameDir (savePath hashFn profileDir name)
      h2 h1).trans hfs⟩

/-- Witness for C2 at a concrete filesystem and name. -/
theorem capture_activate_roundtrip_w :
    (createSave ⟨[], -1⟩
      (fun q => if q = "g" then some [("save.dat", 7)] else none)
      (fun s => "h" ++ s) "p" "g" "slot1" true).status = .ok ∧
    (createSave ⟨[], -1⟩
      (fun q => if q = "g" then some [("save.dat", 7)] else none)
      (fun s => "h" ++ s) "p" "g" "slot1" true).fs
      (savePath (fun s => "h" ++ s) "p" "slot1") = some [("save.dat", 7)] ∧
    setSaveFs (createSave ⟨[], -1⟩
      (fun q => if q = "g" then some [("save.dat", 7)] else none)
      (fun s => "h" ++ s) "p" "g" "slot1" true).fs
      (backupPath "p") "g" (savePath (fun s => "h" ++ s) "p" "slot1")
      "g" = some [("save.dat", 7)] :=
  capture_activate_roundtrip ⟨[], -1⟩
    (fun q => if q = "g" then some [("save.dat", 7)] else none)
    (fun s => "h" ++ s) "p" "g" "slot1" [("save.dat", 7)]
    rfl (by decide) (by decide)

/-- C4: `_delete i` removes the record at `i` and adjusts `last_save`
exactly as claimed: when `last_save` equals the deleted index it becomes
`-1` ("none"); when it is greater it is decremented by one; otherwise it is
unchanged. -/
theorem delete_last_loaded (st : Store) (fs : FS) (hashFn : String → String)
    (profileDir : String) (i : Nat) (hi : i < st.saves.length) :
    (deleteSave st fs hashFn profileDir i).1.saves = st.saves.eraseIdx i ∧
    (st.last_save = (i : Int) →
      (deleteSave st fs hashFn profileDir i).1.last_save = -1) ∧
    ((i : Int) < st.last_save →
      (deleteSave st fs hashFn profileDir i).1.last_save = st.last_save - 1) ∧
    (st.last_save < (i : Int) →
      (deleteSave st fs hashFn profileDir i).1.last_save = st.last_save) := by
  have hsome : st.saves[i]? = some st.saves[i] := List.getElem?_eq_getElem hi
  unfold deleteSave
  rw [hsome]
  refine ⟨rfl, ?_, ?_, ?_⟩ <;> intro h <;> simp only [] <;> split_ifs <;>
    first | rfl | omega

/-- Witness for C4: the spec's concrete scenarios on saves `[A, B, C]` with
`last_save = 2`: deleting index 0 gives `[B, C]` with `last_save = 1`, and
deleting index 2 clears `last_save` to `-1`. -/
theorem delete_last_loaded_w :
    ((deleteSave ⟨[⟨"A", []⟩, ⟨"B", []⟩, ⟨"C", []⟩], 2⟩ (fun _ => none)
        (fun s => s) "p" 0).1.saves = [⟨"B", []⟩, ⟨"C", []⟩] ∧
      (deleteSave ⟨[⟨"A", []⟩, ⟨"B", []⟩, ⟨"C", []⟩], 2⟩ (fun _ => none)
        (fun s => s) "p" 0).1.last_save = 1) ∧
    (deleteSave ⟨[⟨"A", []⟩, ⟨"B", []⟩, ⟨"C", []⟩], 2⟩ (fun _ => none)
        (fun s => s) "p" 2).1.last_save = -1 := by
  have h0 := delete_last_loaded ⟨[⟨"A", []⟩, ⟨"B", []⟩, ⟨"C", []⟩], 2⟩
    (fun _ => none) (fun s => s) "p" 0 (by decide)
  have h2 := delete_last_loaded ⟨[⟨"A", []⟩, ⟨"B", []⟩, ⟨"C", []⟩], 2⟩
    (fun _ => none) (fun s => s) "p" 2 (by decide)
  exact ⟨⟨h0.1.trans (by decide), (h0.2.2.1 (by decide)).trans (by decide)⟩,
    h2.2.1 (by decide)⟩

/-- C7: `_reorder from to` removes the record at `from` and reinserts it at
`to`, the insertion index being interpreted against the list after the
removal; `to` equal to the shortened list's length appends at the end
("end of list"); `last_save` is left untouched by the handler. -/
theorem reorder_pop_insert (st : Store) (f t : Nat) (hf : f < st.saves.length)
    (ht : t ≤ st.saves.length - 1) :
    (reorderSave st f t).saves =
      (st.saves.eraseIdx f).insertIdx t st.saves[f] ∧
    (t = st.saves.length - 1 →
      (reorderSave st f t).saves = st.saves.eraseIdx f ++ [st.saves[f]]) ∧
    (reorderSave st f t).last_save = st.last_save := by
  have hsome : st.saves[f]? = some st.saves[f] := List.getElem?_eq_getElem hf
  have hlen : (st.saves.eraseIdx f).length = st.saves.length - 1 := by
    rw [List.length_eraseIdx]
    simp [hf]
  unfold reorderSave
  rw [hsome]
  refine ⟨rfl, ?_, rfl⟩
  intro h
  have : t = (st.saves.eraseIdx f).length := by omega
  simp only [this, List.insertIdx_length_self]

/-- Witness for C7: the spec's concrete scenario, `[A, B, C]` with
`reorder(0, 2)` yielding `[B, C, A]`. -/
theorem reorder_pop_insert_w :
    (reorderSave ⟨[⟨"A", []⟩, ⟨"B", []⟩, ⟨"C", []⟩], 0⟩ 0 2).saves =
      [⟨"B", []⟩, ⟨"C", []⟩, ⟨"A", []⟩] ∧
    (reorderSave ⟨[⟨"A", []⟩, ⟨"B", []⟩, ⟨"C", []⟩], 0⟩ 0 2).last_save = 0 := by
  have h := reorder_pop_insert ⟨[⟨"A", []⟩, ⟨"B", []⟩, ⟨"C", []⟩], 0⟩ 0 2
    (by decide) (by decide)
  exact ⟨(h.2.1 (by decide)).trans (by decide), h.2.2⟩

/-- C9: when no save has been loaded since the profile was activated
(`last_save = -1`) and the save list is non-empty, `_reload` does not raise:
Python's negative indexing makes `saves[-1]` select the final record, so the
swap runs with the last save's snapshot directory, and `last_save` is
re-assigned `-1`, remaining "none". -/
theorem reload_with_no_last (st : Store) (fs : FS) (hashFn : String → String)
    (profileDir liveDir : String) (hne : st.saves ≠ [])
    (hlast : st.last_save = -1) :
    reload st fs hashFn profileDir liveDir =
      some (st,
        setSaveFs fs (backupPath profileDir) liveDir
          (savePath hashFn profileDir (st.saves.getLast hne).name)) := by
  have hlen : 0 < st.saves.length := List.length_pos.mpr hne
  have hpy : pyGet st.saves (-1 : Int) = some (st.saves.getLast hne) := by
    unfold pyGet
    rw [if_neg (by omega), if_pos (by omega)]
    have hidx : (((st.saves.length : Int) + (-1)).toNat) = st.saves.length - 1 := by
      omega
    rw [hidx, List.getElem?_eq_getElem (by omega), List.getLast_eq_getElem]
  have hst : ({ st with last_save := (-1 : Int) } : Store) = st := by
    cases st
    simp_all
  unfold reload setSave
  rw [if_neg (by simp [hne]), hlast, hpy]
  simp only [hst]
  rfl

/-- Witness for C9: a two-save store with `last_save = -1`; reload picks
save "B", the last one. -/
theorem reload_with_no_last_w :
    reload ⟨[⟨"A", []⟩, ⟨"B", []⟩], -1⟩
      (fun q => if q = "g" then some [("f", 3)] else none)
      (fun s => "h" ++ s) "p" "g" =
      some (⟨[⟨"A", []⟩, ⟨"B", []⟩], -1⟩,
        setSaveFs (fun q => if q = "g" then some [("f", 3)] else none)
          (backupPath "p") "g" (savePath (fun s => "h" ++ s) "p" "B")) :=
  reload_with_no_last ⟨[⟨"A", []⟩, ⟨"B", []⟩], -1⟩
    (fun q => if q = "g" then some [("f", 3)] else none)
    (fun s => "h" ++ s) "p" "g" (by decide) rfl

/-- One good operation preserves the strengthened registry invariant. -/
lemma regInv_step (l : ProfileList) (op : RegOp) (hInv : RegInv l)
    (hop : opGood l op) : RegInv (applyOp l op) := by
  obtain ⟨h0, h1⟩ := hInv
  cases op with
  | add p =>
    unfold applyOp addProfile RegInv
    constructor
    · intro h; simp at h
    · intro _
      simp only [List.length_append, List.length_cons, List.length_nil]
      rcases eq_or_ne l.profiles [] with he | he
      · have := h0 he; simp [this]
      · have := h1 he; omega
  | remove i =>
    obtain ⟨hi, hd⟩ := hop
    have hne : l.profiles ≠ [] := by
      intro h; rw [h] at hi; simp at hi
    have hdlt := h1 hne
    have hlen : (l.profiles.eraseIdx i).length = l.profiles.length - 1 := by
      rw [List.length_eraseIdx]; simp [hi]
    simp only [applyOp, removeProfile, RegInv]
    constructor
    · intro h
      have hc := congrArg List.length h
      rw [hlen] at hc
      simp only [List.length_nil] at hc
      have hd0 : l.default = 0 := by omega
      have hi0 : i = 0 := by omega
      simp [hd0, hi0]
    · intro h
      have h2 : 0 < (l.profiles.eraseIdx i).length := List.length_pos.mpr h
      rw [hlen] at h2
      rw [hlen]
      split
      · omega
      · omega
  | setDef i =>
    unfold applyOp setDefaultProfile RegInv
    unfold opGood at hop
    constructor
    · intro h
      rw [h] at hop
      simp at hop
    · intro _
      exact hop

/-- Good operation sequences preserve the strengthened registry
invariant. -/
lemma regInv_ops (l : ProfileList) (ops : List RegOp) (hInv : RegInv l)
    (hops : opsGood l ops) : RegInv (applyOps l ops) := by
  induction ops generalizing l with
  | nil => exact hInv
  | cons op ops ih => exact ih (applyOp l op) (regInv_step l op hInv hops.1) hops.2

/-- C3 counterexample: the claimed invariant fails on a concrete valid
operation sequence.  Starting from the fresh registry, add "A", add "B",
set_default(1), then delete profile 0: `_delete_profile` resets `default`
only when it equals the deleted index and never decrements it, so the
result has one profile but `default = 1`, out of range. -/
theorem registry_default_invariant_cex :
    opsValid { profiles := [], default := 0 }
      [.add ⟨"A", "/a"⟩, .add ⟨"B", "/b"⟩, .setDef 1, .remove 0] ∧
    (applyOps { profiles := [], default := 0 }
      [.add ⟨"A", "/a"⟩, .add ⟨"B", "/b"⟩, .setDef 1, .remove 0]).profiles ≠ [] ∧
    ¬ DefaultInv (applyOps { profiles := [], default := 0 }
      [.add ⟨"A", "/a"⟩, .add ⟨"B", "/b"⟩, .setDef 1, .remove 0]) := by
  decide

/-- C3 (amended): the fresh registry satisfies the invariant; `default`
stays a valid index under every operation sequence whose removals never
target an index strictly below the current `default`; `remove(index)` with
`index = default` resets `default` to 0; and removing the last remaining
profile leaves an empty registry with `default = 0`.  (Removing an index
strictly below `default` can leave `default` out of range, as the
counterexample shows.) -/
theorem registry_default_invariant (l : ProfileList) :
    RegInv { profiles := [], default := 0 } ∧
    (∀ ops, RegInv l → opsGood l ops → DefaultInv (applyOps l ops)) ∧
    (∀ i, i < l.profiles.length → l.default = i →
      (removeProfile l i).default = 0) ∧
    (l.profiles.length = 1 → RegInv l →
      (removeProfile l 0).profiles = [] ∧ (removeProfile l 0).default = 0) := by
  refine ⟨by decide, ?_, ?_, ?_⟩
  · intro ops hInv hops
    intro hne
    exact (regInv_ops l ops hInv hops).2 hne
  · intro i _ hdef
    simp [removeProfile, hdef]
  · intro hlen hInv
    obtain ⟨a, ha⟩ := List.length_eq_one.mp hlen
    have hd0 : l.default = 0 := by
      have := hInv.2 (by simp [ha])
      omega
    constructor
    · simp [removeProfile, ha]
    · simp [removeProfile, hd0]

/-- Witness for the amended C3 at concrete registries. -/
theorem registry_default_invariant_w :
    DefaultInv (applyOps ⟨[⟨"A", "/a"⟩, ⟨"B", "/b"⟩], 1⟩
      [.remove 1, .setDef 0]) ∧
    (removeProfile ⟨[⟨"A", "/a"⟩, ⟨"B", "/b"⟩], 1⟩ 1).default = 0 ∧
    ((removeProfile ⟨[⟨"A", "/a"⟩], 0⟩ 0).profiles = [] ∧
      (removeProfile ⟨[⟨"A", "/a"⟩], 0⟩ 0).default = 0) := by
  have h1 := registry_default_invariant ⟨[⟨"A", "/a"⟩, ⟨"B", "/b"⟩], 1⟩
  have h2 := registry_default_invariant ⟨[⟨"A", "/a"⟩], 0⟩
  exact ⟨h1.2.1 [.remove 1, .setDef 0] (by decide) (by decide),
    h1.2.2.1 1 (by decide) rfl, h2.2.2.2 rfl (by decide)⟩

/-- A successful `findIdx?` returns an in-range index. -/
lemma findIdx?_some_lt (l : List Save) (nm : String) (j : Nat)
    (h : l.findIdx? (fun s => s.name == nm) = some j) : j < l.length :=
  (List.findIdx?_eq_some_iff_findIdx_eq.mp h).1

/-- A successful `findIdx?` for a name finds a record with that name. -/
lemma findIdx?_some_name (l : List Save) (nm : String) (j : Nat)
    (h : l.findIdx? (fun s => s.name == nm) = some j) (hj : j < l.length) :
    l[j].name = nm := by
  obtain ⟨hlt, hfi⟩ := List.findIdx?_eq_some_iff_findIdx_eq.mp h
  have hp := @List.findIdx_getElem _ (fun s => s.name == nm) l
    (by rw [hfi]; exact hj)
  simp only [hfi] at hp
  simpa using hp

/-- In a store with pairwise-distinct save names, records at different
positions have different names. -/
lemma names_ne (l : List Save) (hnodup : (l.map Save.name).Nodup)
    (a b : Nat) (ha : a < l.length) (hb : b < l.length) (hab : a < b) :
    l[a].name ≠ l[b].name := by
  have h := List.pairwise_iff_getElem.mp hnodup a b (by simpa) (by simpa) hab
  simpa using h

/-- Reduction of `_create` on the confirmed-overwrite path. -/
lemma createSave_overwrite_eq (st : Store) (fs : FS) (hashFn : String → String)
    (profileDir gameDir name : String) (j : Nat)
    (hfind : st.saves.findIdx? (fun s => s.name == name) = some j)
    (hdest : (fs (savePath hashFn profileDir name)).isSome = true)
    (hgame : (fs gameDir).isSome = true) :
    createSave st fs hashFn profileDir gameDir name true =
      { store := { saves := st.saves.eraseIdx j ++ [⟨name, []⟩],
                   last_save := st.last_save },
        fs := copytree (rmtree fs (savePath hashFn profileDir name)) gameDir
          (savePath hashFn profileDir name),
        status := .ok } := by
  unfold createSave pathExists
  rw [if_neg (by simp [hgame])]
  simp only [hfind, hdest, if_true]
  rw [if_neg (by simp)]

/-- C5: overwrite capture.  When a record named `name` exists (at position
`j`, with its snapshot directory on disk) and the overwrite is confirmed,
`_create` deletes the old snapshot directory, drops the old record, and
appends the fresh record at the end: the record count is unchanged, the
new record sits at the last position, the on-disk directory is recreated
at the same content-addressed path (same token, since the name is
unchanged) now holding the captured live tree `G`, and (when the old
record was not already last) the overwritten name's original list position
now holds a different name. -/
theorem create_overwrite_spec (st : Store) (fs : FS) (hashFn : String → String)
    (profileDir gameDir name : String) (G : Tree) (j : Nat)
    (hfind : st.saves.findIdx? (fun s => s.name == name) = some j)
    (hdest : (fs (savePath hashFn profileDir name)).isSome = true)
    (hgame : fs gameDir = some G)
    (hdg : savePath hashFn profileDir name ≠ gameDir) :
    (createSave st fs hashFn profileDir gameDir name true).status = .ok ∧
    (createSave st fs hashFn profileDir gameDir name true).store.saves =
      st.saves.eraseIdx j ++ [⟨name, []⟩] ∧
    (createSave st fs hashFn profileDir gameDir name true).store.saves.length =
      st.saves.length ∧
    (createSave st fs hashFn profileDir gameDir name true).store.saves.getLast? =
      some ⟨name, []⟩ ∧
    (createSave st fs hashFn profileDir gameDir name true).fs
      (savePath hashFn profileDir name) = some G ∧
    ((st.saves.map Save.name).Nodup → j + 1 < st.saves.length →
      (((createSave st fs hashFn profileDir gameDir name true).store.saves[j]?).map
        Save.name) ≠ some name) := by
  have hj := findIdx?_some_lt st.saves name j hfind
  have hC := createSave_overwrite_eq st fs hashFn profileDir gameDir name j
    hfind hdest (by simp [hgame])
  rw [hC]
  have hlen : (st.saves.eraseIdx j).length = st.saves.length - 1 := by
    rw [List.length_eraseIdx]; simp [hj]
  refine ⟨rfl, rfl, ?_, List.getLast?_concat _, ?_, ?_⟩
  · simp only [List.length_append, List.length_cons, List.length_nil, hlen]
    omega
  · unfold copytree rmtree
    simp [Ne.symm hdg, hgame]
  · intro hnodup hjlt
    have hj1 : j < (st.saves.eraseIdx j).length := by omega
    have hname : st.saves[j].name = name :=
      findIdx?_some_name st.saves name j hfind hj
    have hne := names_ne st.saves hnodup j (j + 1) hj hjlt (by omega)
    have hval : (st.saves.eraseIdx j ++ [(⟨name, []⟩ : Save)])[j]? =
        some st.saves[j + 1] := by
      rw [List.getElem?_append_left hj1, List.getElem?_eq_getElem hj1,
        List.getElem_eraseIdx_of_ge st.saves j j hj1 (le_refl j)]
    show Option.map Save.name
        ((st.saves.eraseIdx j ++ [(⟨name, []⟩ : Save)])[j]?) ≠ some name
    rw [hval, Option.map_some']
    intro hcontra
    exact hne (hname.trans (Option.some_inj.mp hcontra).symm)

/-- Witness for C5: overwriting "slot1" in the middle of a three-save
store. -/
theorem create_overwrite_spec_w :
    (createSave ⟨[⟨"slot0", []⟩, ⟨"slot1", []⟩, ⟨"slot2", []⟩], 0⟩
      (fun q => if q = "g" then some [("d", 1)]
                else if q = "p/hslot1" then some [("old", 0)] else none)
      (fun s => "h" ++ s) "p" "g" "slot1" true).store.saves =
      [⟨"slot0", []⟩, ⟨"slot2", []⟩, ⟨"slot1", []⟩] ∧
    (createSave ⟨[⟨"slot0", []⟩, ⟨"slot1", []⟩, ⟨"slot2", []⟩], 0⟩
      (fun q => if q = "g" then some [("d", 1)]
                else if q = "p/hslot1" then some [("old", 0)] else none)
      (fun s => "h" ++ s) "p" "g" "slot1" true).fs
      (savePath (fun s => "h" ++ s) "p" "slot1") = some [("d", 1)] ∧
    ((createSave ⟨[⟨"slot0", []⟩, ⟨"slot1", []⟩, ⟨"slot2", []⟩], 0⟩
      (fun q => if q = "g" then some [("d", 1)]
                else if q = "p/hslot1" then some [("old", 0)] else none)
      (fun s => "h" ++ s) "p" "g" "slot1" true).store.saves[1]?).map
      Save.name ≠ some "slot1" := by
  have h := create_overwrite_spec ⟨[⟨"slot0", []⟩, ⟨"slot1", []⟩, ⟨"slot2", []⟩], 0⟩
    (fun q => if q = "g" then some [("d", 1)]
              else if q = "p/hslot1" then some [("old", 0)] else none)
    (fun s => "h" ++ s) "p" "g" "slot1" [("d", 1)] 1
    (by decide) (by decide) (by decide) (by decide)
  exact ⟨h.2.1.trans (by decide), h.2.2.2.2.1, h.2.2.2.2.2 (by decide) (by decide)⟩

/-- C10 counterexample: overwrite-capture of a store whose only save "A" is
also the last-loaded one (`last_save = 0 = i`).  The claim asserts that for
every store with `last_loaded ≥ i` the index afterwards refers to a
different save than the most recently activated one; here the fresh record
is appended at the very position `last_save` points to, so `last_save`
still refers to a save named "A" — by the data model's name identity, the
same save that was most recently activated.  The claim's universal
statement is false at this input. -/
theorem create_overwrite_last_loaded_cex :
    (createSave ⟨[⟨"A", []⟩], 0⟩
      (fun q => if q = "p/hA" then some [("x", 5)]
                else if q = "g" then some [("x", 6)] else none)
      (fun s => "h" ++ s) "p" "g" "A" true).store.last_save = 0 ∧
    ((createSave ⟨[⟨"A", []⟩], 0⟩
      (fun q => if q = "p/hA" then some [("x", 5)]
                else if q = "g" then some [("x", 6)] else none)
      (fun s => "h" ++ s) "p" "g" "A" true).store.saves[(0 : Nat)]?).map
      Save.name = some "A" ∧
    ((Store.saves ⟨[⟨"A", []⟩], 0⟩)[(0 : Nat)]?).map Save.name = some "A" := by
  decide

/-- C10 (amended): overwrite-capture never adjusts `last_save`; hence
whenever the first record named `name` sits at position `j ≤ last_save`
and the overwritten record is not simultaneously the last list entry and
the last-loaded one (`¬(j = last_save ∧ last_save = count - 1)`), after
the overwrite `last_save` refers to a save with a different name than the
most recently activated one — positional `last_loaded` tracking is broken
by overwrite-capture except in that single fixed-point case. -/
theorem create_overwrite_last_loaded (st : Store) (fs : FS)
    (hashFn : String → String) (profileDir gameDir name : String) (L j : Nat)
    (hnodup : (st.saves.map Save.name).Nodup)
    (hfind : st.saves.findIdx? (fun s => s.name == name) = some j)
    (hdest : (fs (savePath hashFn profileDir name)).isSome = true)
    (hgame : (fs gameDir).isSome = true)
    (hlast : st.last_save = (L : Int)) (hL : L < st.saves.length)
    (hjL : j ≤ L) (hedge : ¬(j = L ∧ L = st.saves.length - 1)) :
    (createSave st fs hashFn profileDir gameDir name true).store.last_save =
      st.last_save ∧
    ((createSave st fs hashFn profileDir gameDir name true).store.saves[L]?).map
      Save.name ≠ (st.saves[L]?).map Save.name := by
  have hj := findIdx?_some_lt st.saves name j hfind
  have hname : st.saves[j].name = name :=
    findIdx?_some_name st.saves name j hfind hj
  have hC := createSave_overwrite_eq st fs hashFn profileDir gameDir name j
    hfind hdest hgame
  rw [hC]
  have hlen : (st.saves.eraseIdx j).length = st.saves.length - 1 := by
    rw [List.length_eraseIdx]; simp [hj]
  have hstL : st.saves[L]? = some st.saves[L] := List.getElem?_eq_getElem hL
  refine ⟨rfl, ?_⟩
  show Option.map Save.name
      ((st.saves.eraseIdx j ++ [(⟨name, []⟩ : Save)])[L]?) ≠
    Option.map Save.name (st.saves[L]?)
  rw [hstL, Option.map_some']
  rcases lt_or_ge L (st.saves.length - 1) with hcase | hcase
  · have hL1 : L < (st.saves.eraseIdx j).length := by omega
    rw [List.getElem?_append_left hL1, List.getElem?_eq_getElem hL1,
      List.getElem_eraseIdx_of_ge st.saves j L hL1 hjL, Option.map_some']
    intro hcontra
    exact names_ne st.saves hnodup L (L + 1) hL (by omega) (by omega)
      (Option.some_inj.mp hcontra).symm
  · have hLeq : L = st.saves.length - 1 := by omega
    have hjL' : j < L := by
      rcases Nat.lt_or_ge j L with h | h
      · exact h
      · exact absurd ⟨by omega, hLeq⟩ hedge
    rw [List.getElem?_append_right (by omega)]
    have h0 : L - (st.saves.eraseIdx j).length = 0 := by omega
    rw [h0]
    simp only [List.getElem?_cons_zero, Option.map_some']
    intro hcontra
    exact names_ne st.saves hnodup j L hj hL hjL'
      (hname.trans (Option.some_inj.mp hcontra))

/-- Witness for the amended C10: store `[A, B]` with `last_save = 1`;
overwriting "A" leaves `last_save = 1`, which now names "A" instead of the
activated "B". -/
theorem create_overwrite_last_loaded_w :
    (createSave ⟨[⟨"A", []⟩, ⟨"B", []⟩], 1⟩
      (fun q => if q = "p/hA" then some [("x", 5)]
                else if q = "g" then some [("x", 6)] else none)
      (fun s => "h" ++ s) "p" "g" "A" true).store.last_save = 1 ∧
    ((createSave ⟨[⟨"A", []⟩, ⟨"B", []⟩], 1⟩
      (fun q => if q = "p/hA" then some [("x", 5)]
                else if q = "g" then some [("x", 6)] else none)
      (fun s => "h" ++ s) "p" "g" "A" true).store.saves[(1 : Nat)]?).map
      Save.name ≠ ((Store.saves ⟨[⟨"A", []⟩, ⟨"B", []⟩], 1⟩)[(1 : Nat)]?).map
      Save.name := by
  have h := create_overwrite_last_loaded ⟨[⟨"A", []⟩, ⟨"B", []⟩], 1⟩
    (fun q => if q = "p/hA" then some [("x", 5)]
              else if q = "g" then some [("x", 6)] else none)
    (fun s => "h" ++ s) "p" "g" "A" 1 0
    (by decide) (by decide) (by decide) (by decide) rfl (by decide) (by decide)
    (by decide)
  exact ⟨h.1, h.2⟩

/-- Bounds on the index returned by the bounded re-sampling loop: between
`i` (no samples) and `i + fuel` (all samples consumed). -/
lemma activePolls_bounds (samples : Nat → Nat) :
    ∀ (fuel i current : Nat),
      i ≤ (activePolls samples i current fuel).1 ∧
      (activePolls samples i current fuel).1 ≤ i + fuel := by
  intro fuel
  induction fuel with
  | zero => intro i c; simp [activePolls]
  | succ fuel ih =>
    intro i c
    simp only [activePolls]
    split
    · simp
    · have h := ih (i + 1) (samples i)
      omega

/-- With at least one iteration available, the loop always takes at least
one sample. -/
lemma activePolls_pos (samples : Nat → Nat) :
    ∀ (fuel i current : Nat), fuel ≠ 0 →
      i < (activePolls samples i current fuel).1 := by
  intro fuel
  cases fuel with
  | zero => intro i c h; exact absurd rfl h
  | succ fuel =>
    intro i c _
    simp only [activePolls]
    split
    · omega
    · have h := activePolls_bounds samples fuel (i + 1) (samples i)
      omega

/-- The loop's final `current_time` is the last sample taken (or the
triggering value when no sample was taken). -/
lemma activePolls_snd (samples : Nat → Nat) :
    ∀ (fuel i current : Nat),
      (activePolls samples i current fuel).2 =
        if (activePolls samples i current fuel).1 = i then current
        else samples ((activePolls samples i current fuel).1 - 1) := by
  intro fuel
  induction fuel with
  | zero => intro i c; simp [activePolls]
  | succ fuel ih =>
    intro i c
    simp only [activePolls]
    split
    · rw [if_neg (by omega)]
      simp
    · have hb := activePolls_bounds samples fuel (i + 1) (samples i)
      rw [ih (i + 1) (samples i)]
      rcases eq_or_ne (activePolls samples (i + 1) (samples i) fuel).1 (i + 1)
        with he | he
      · rw [if_pos he, if_neg (by omega), he]
        simp
      · rw [if_neg he, if_neg (by omega)]

/-- Minimality: every sample taken strictly before the loop's last one
differs from its immediately preceding sample (the preceding sample being
the triggering value for the first poll). -/
lemma activePolls_min (samples : Nat → Nat) :
    ∀ (fuel i current k : Nat),
      i + k + 1 < (activePolls samples i current fuel).1 →
      samples (i + k) ≠ (if k = 0 then current else samples (i + k - 1)) := by
  intro fuel
  induction fuel with
  | zero =>
    intro i c k h
    simp [activePolls] at h
    omega
  | succ fuel ih =>
    intro i c k h
    simp only [activePolls] at h
    by_cases heq : samples i = c
    · rw [if_pos heq] at h
      simp at h
    · rw [if_neg heq] at h
      cases k with
      | zero => simpa using heq
      | succ k' =>
        have := ih (i + 1) (samples i) k' (by omega)
        cases k' with
        | zero => simpa using this
        | succ k'' =>
          rw [if_neg (by omega)] at this
          rw [if_neg (by omega)]
          have e1 : i + 1 + (k'' + 1) = i + (k'' + 1 + 1) := by omega
          rw [e1] at this
          exact this

/-- When the bounded loop stops early, it stopped because the last sample
taken repeated its immediately preceding sample. -/
lemma activePolls_settle (samples : Nat → Nat) :
    ∀ (fuel i current : Nat),
      (activePolls samples i current fuel).1 < i + fuel →
      i < (activePolls samples i current fuel).1 ∧
      samples ((activePolls samples i current fuel).1 - 1) =
        (if (activePolls samples i current fuel).1 - 1 = i then current
         else samples ((activePolls samples i current fuel).1 - 2)) := by
  intro fuel
  induction fuel with
  | zero => intro i c h; simp [activePolls] at h
  | succ fuel ih =>
    intro i c h
    simp only [activePolls] at h ⊢
    by_cases heq : samples i = c
    · rw [if_pos heq] at h ⊢
      dsimp only
      refine ⟨by omega, ?_⟩
      rw [Nat.add_sub_cancel, if_pos rfl]
      exact heq
    · rw [if_neg heq] at h ⊢
      have hb := activePolls_bounds samples fuel (i + 1) (samples i)
      obtain ⟨hlt, hsettle⟩ := ih (i + 1) (samples i) (by omega)
      refine ⟨by omega, ?_⟩
      rcases eq_or_ne ((activePolls samples (i + 1) (samples i) fuel).1 - 1)
        (i + 1) with he | he
      · rw [if_pos he] at hsettle
        rw [if_neg (by omega), hsettle]
        have hnorm : (activePolls samples (i + 1) (samples i) fuel).1 - 2 = i := by
          omega
        rw [hnorm]
      · rw [if_neg he] at hsettle
        rw [if_neg (by omega)]
        exact hsettle

/-- C6 (amended): debounce behaviour of a burst in `_autoload`.  Handling a
burst takes between 1 and `MAX_ACTIVE_POLLS` re-samples; every re-sample
before the last differs from its immediately preceding sample, and when the
loop stops below the bound it is because the last re-sample repeated its
predecessor (burst settled); `_set_save` is then called exactly once, and
the new baseline is one further fresh sample taken after the activation —
also in the exhausted case, where the claim instead asserted the last
observed timestamp becomes the baseline.  The outer loop enters the burst
path exactly when a sample exceeds the armed baseline, and one armed
iteration performs exactly one activation before returning to armed
polling; a sample at or below the baseline leaves the state armed with no
activation. -/
theorem autoload_debounce (samples : Nat → Nat) (i current : Nat) :
    (burstHandle samples i current).activations = 1 ∧
    1 ≤ (burstHandle samples i current).samplesTaken ∧
    (burstHandle samples i current).samplesTaken ≤ MAX_ACTIVE_POLLS ∧
    (burstHandle samples i current).nextIdx =
      i + (burstHandle samples i current).samplesTaken + 1 ∧
    (burstHandle samples i current).baseline =
      samples (i + (burstHandle samples i current).samplesTaken) ∧
    (burstHandle samples i current).finalCurrent =
      samples (i + (burstHandle samples i current).samplesTaken - 1) ∧
    (∀ k, k + 1 < (burstHandle samples i current).samplesTaken →
      samples (i + k) ≠ (if k = 0 then current else samples (i + k - 1))) ∧
    ((burstHandle samples i current).samplesTaken < MAX_ACTIVE_POLLS →
      samples (i + (burstHandle samples i current).samplesTaken - 1) =
        (if (burstHandle samples i current).samplesTaken = 1 then current
         else samples (i + (burstHandle samples i current).samplesTaken - 2))) ∧
    (∀ b, b < samples i → autoloadStep samples i b =
      ((burstHandle samples (i + 1) (samples i)).nextIdx,
        (burstHandle samples (i + 1) (samples i)).baseline, 1)) ∧
    (∀ b, samples i ≤ b → autoloadStep samples i b = (i + 1, b, 0)) := by
  have hb := activePolls_bounds samples MAX_ACTIVE_POLLS i current
  have hp := activePolls_pos samples MAX_ACTIVE_POLLS i current (by decide)
  simp only [burstHandle]
  refine ⟨by trivial, by omega, by omega, by omega, ?_, ?_, ?_, ?_, ?_, ?_⟩
  · have e : i + ((activePolls samples i current MAX_ACTIVE_POLLS).1 - i) =
        (activePolls samples i current MAX_ACTIVE_POLLS).1 := by omega
    rw [e]
  · have hsnd := activePolls_snd samples MAX_ACTIVE_POLLS i current
    rw [if_neg (by omega)] at hsnd
    have e : i + ((activePolls samples i current MAX_ACTIVE_POLLS).1 - i) - 1 =
        (activePolls samples i current MAX_ACTIVE_POLLS).1 - 1 := by omega
    rw [e]
    exact hsnd
  · intro k hk
    exact activePolls_min samples MAX_ACTIVE_POLLS i current k (by omega)
  · intro hlt
    obtain ⟨hpos, hs⟩ :=
      activePolls_settle samples MAX_ACTIVE_POLLS i current (by omega)
    have e1 : i + ((activePolls samples i current MAX_ACTIVE_POLLS).1 - i) - 1 =
        (activePolls samples i current MAX_ACTIVE_POLLS).1 - 1 := by omega
    have e2 : i + ((activePolls samples i current MAX_ACTIVE_POLLS).1 - i) - 2 =
        (activePolls samples i current MAX_ACTIVE_POLLS).1 - 2 := by omega
    rw [e1, e2]
    rcases eq_or_ne ((activePolls samples i current MAX_ACTIVE_POLLS).1 - i) 1
      with h1 | h1
    · rw [if_pos h1]
      rw [if_pos (by omega)] at hs
      exact hs
    · rw [if_neg h1]
      rw [if_neg (by omega)] at hs
      exact hs
  · intro b hb'
    simp only [autoloadStep, burstHandle]
    rw [if_pos hb']
  · intro b hb'
    simp only [autoloadStep]
    rw [if_neg (by omega)]

/-- Witness for the amended C6: the spec's settle scenario with an
immediately repeating timestamp, plus the armed no-change iteration. -/
theorem autoload_debounce_w :
    (burstHandle (fun _ => 5) 1 5).activations = 1 ∧
    (burstHandle (fun _ => 5) 1 5).samplesTaken = 1 ∧
    (burstHandle (fun _ => 5) 1 5).baseline = 5 ∧
    autoloadStep (fun _ => 5) 0 3 =
      ((burstHandle (fun _ => 5) 1 5).nextIdx,
        (burstHandle (fun _ => 5) 1 5).baseline, 1) ∧
    autoloadStep (fun _ => 5) 0 7 = (1, 7, 0) := by
  have h := autoload_debounce (fun _ => 5) 0 5
  exact ⟨(autoload_debounce (fun _ => 5) 1 5).1, by decide, by decide,
    h.2.2.2.2.2.2.2.2.1 3 (by decide), h.2.2.2.2.2.2.2.2.2 7 (by decide)⟩

/-- C6 counterexample for the claim's exhausted-case baseline: with the
strictly increasing timestamp stream `samples n = n`, the burst triggered
with value 100 at index 0 exhausts all `MAX_ACTIVE_POLLS` re-samples (no
two consecutive samples are ever equal), the last observed timestamp is 9,
yet the loop re-baselines with the fresh post-activation sample 10 — not
with the last observed timestamp as the claim states. -/
theorem autoload_rebaseline_cex :
    (burstHandle (fun n => n) 0 100).samplesTaken = MAX_ACTIVE_POLLS ∧
    (burstHandle (fun n => n) 0 100).finalCurrent = 9 ∧
    (burstHandle (fun n => n) 0 100).baseline = 10 ∧
    (burstHandle (fun n => n) 0 100).baseline ≠
      (burstHandle (fun n => n) 0 100).finalCurrent := by
  decide

end SuaveSave
